import Mathlib

/-!
Shallow embedding of the fets.hub catalog application core
(`src/App.tsx`, `src/components/ProjectModal.tsx`, seed data in
`src/unnamed/part_000`): data model, derivation engine (category /
search filtering, status grouping), and the create / edit workflow,
together with theorems settling the specification claims.

Strings are modelled as lists of characters (the ASCII fragment of
JavaScript string semantics used by the program); `Date.now()` readings
are explicit `Nat` parameters; the result of `new Date(...).getTime()`
is an explicit `Int` parameter where `0` encodes any falsy reading
(`NaN` or epoch zero), matching the `||` fallbacks in the source.
-/

namespace FetsHub

/-- A JavaScript string, modelled as its list of characters. -/
abbrev Str := List Char

/-- Whitespace recognised by `String.prototype.trim` (ASCII fragment). -/
def isWsChar (c : Char) : Bool :=
  c == ' ' || c == '\t' || c == '\n' || c == '\r'

/-- JavaScript `s.trim()`: drop leading and trailing whitespace. -/
def trimList (s : Str) : Str :=
  ((s.dropWhile isWsChar).reverse.dropWhile isWsChar).reverse

/-- JavaScript `toLowerCase` on one character (ASCII fragment). -/
def toLowerChar (c : Char) : Char :=
  if 'A' ≤ c && c ≤ 'Z' then Char.ofNat (c.toNat + 32) else c

/-- JavaScript `s.toLowerCase()` (ASCII fragment). -/
def lowerStr (s : Str) : Str := s.map toLowerChar

/-- Boolean test that the first list is a prefix of the second. -/
def isPrefixB : Str → Str → Bool
  | [], _ => true
  | _ :: _, [] => false
  | a :: as, b :: bs => a == b && isPrefixB as bs

/-- JavaScript `s.includes(sub)`: `sub` occurs contiguously in `s`. -/
def containsSub : Str → Str → Bool
  | [], sub => sub.isEmpty
  | a :: t, sub => isPrefixB sub (a :: t) || containsSub t sub

/-- JavaScript `s.split(',')`; note `"".split(',') = [""]`. -/
def splitComma : Str → List Str
  | [] => [[]]
  | c :: rest =>
    if c = ',' then [] :: splitComma rest
    else
      match splitComma rest with
      | [] => [[c]]
      | t :: ts => (c :: t) :: ts

/-- The tech-stack normalisation used by both save handlers
(`App.tsx` lines 168 and 197):
`data.techStack.split(',').map(s => s.trim()).filter(Boolean)`. -/
def parseTechStack (s : Str) : List Str :=
  ((splitComma s).map trimList).filter (fun t => !t.isEmpty)

/-- Decimal digit character, `48 + d` in ASCII. -/
def digitChar (d : Nat) : Char := Char.ofNat (48 + d)

/-- Little-endian decimal digit characters of `n`, with explicit fuel so
that the definition is structurally recursive (and hence evaluable by
`decide`). `natToStrAux fuel n` is the digit list of `n` when `n ≤ fuel`. -/
def natToStrAux : Nat → Nat → Str
  | 0, _ => []
  | fuel + 1, n =>
    if n = 0 then [] else digitChar (n % 10) :: natToStrAux fuel (n / 10)

/-- JavaScript `n.toString()` for a non-negative integer, as used by
`Date.now().toString()` for fresh ids. -/
def natToStr (n : Nat) : Str :=
  if n = 0 then ['0'] else (natToStrAux n n).reverse

/-- Modelled from the spec: `types.ts` is not among the sources; the spec
gives `status` as one of the closed enumeration
`{IDEA, IN_PROGRESS, COMPLETED, ARCHIVED}`. The grouping code of
`App.tsx` indexes a string-keyed record by `p.status`, so statuses are
modelled as strings with four distinguished values. -/
def ProjectStatus.IDEA : Str := ("IDEA".data)

/-- Modelled from the spec: see `ProjectStatus.IDEA`. -/
def ProjectStatus.IN_PROGRESS : Str := ("IN_PROGRESS".data)

/-- Modelled from the spec: see `ProjectStatus.IDEA`. -/
def ProjectStatus.COMPLETED : Str := ("COMPLETED".data)

/-- Modelled from the spec: see `ProjectStatus.IDEA`. -/
def ProjectStatus.ARCHIVED : Str := ("ARCHIVED".data)

/-- Modelled from the spec: the `itemType` variant tag `{app, file}` of
`types.ts` (not among the sources). -/
inductive ItemType where
  | app
  | file
deriving DecidableEq

/-- Modelled from the spec: the `UserRole` enumeration
`{ADMIN, DEVELOPER, EDITOR, VIEWER}` of `types.ts` (not among the
sources). -/
inductive UserRole where
  | ADMIN
  | DEVELOPER
  | EDITOR
  | VIEWER
deriving DecidableEq

/-- One audit-log record, `ChangeLogEntry` of `types.ts`
(shape as given by the spec and by `handleUpdateProject`). -/
structure ChangeLogEntry where
  id : Str
  date : Nat
  author : Str
  reason : Str
deriving DecidableEq

/-- One catalog entity, `Project` of `types.ts` (shape as given by the
spec and by the two save handlers; the optional `changeHistory` is
modelled as a list, `[]` standing for an absent field, which matches the
`p.changeHistory || []` read in `handleUpdateProject`). -/
structure Project where
  id : Str
  name : Str
  description : Str
  status : Str
  websiteUrl : Str
  repoUrl : Str
  imageUrl : Str
  techStack : List Str
  files : Str
  createdAt : Int
  itemType : ItemType
  changeHistory : List ChangeLogEntry
deriving DecidableEq

/-- A user record, `User` of `types.ts` (shape per the spec). -/
structure User where
  id : Str
  name : Str
  email : Str
  role : UserRole
  avatarUrl : Str
deriving DecidableEq

/-- The modal form state, `ProjectFormData` of `types.ts`: `techStack` is
the raw comma-separated input; the optional `createdAt` is an `Int` with
`0` standing for an absent or falsy value (matching the `||` fallbacks
observed in both save handlers). -/
structure ProjectFormData where
  name : Str
  description : Str
  status : Str
  websiteUrl : Str
  repoUrl : Str
  imageUrl : Str
  techStack : Str
  files : Str
  itemType : ItemType
  changeReason : Str
  createdAt : Int
deriving DecidableEq

/-- The fixed keyword set of the `FETS Apps` category filter
(`App.tsx` line 96). -/
def keywordList : List Str :=
  [("React".data), ("Vue".data), ("Angular".data), ("Svelte".data),
   ("Next.js".data), ("HTML".data), ("Node".data)]

/-- The `FETS Apps` category predicate of `filteredProjects`
(`App.tsx` lines 94-97): an app whose tech stack has a tag containing
one of the keywords — `t.includes(k)`, a case-sensitive test. -/
def fetsAppsMatch (p : Project) : Bool :=
  p.itemType == ItemType.app &&
    p.techStack.any (fun t => keywordList.any (fun k => containsSub t k))

/-- Step 1 of `filteredProjects` (`App.tsx` lines 87-99): the category
filter. Categories other than the four recognised ones fall through
with no filtering. -/
def categoryFilter (ps : List Project) (cat : Str) (myList : List Str) :
    List Project :=
  if cat = ("Home".data) then ps.filter (fun p => p.itemType == ItemType.app)
  else if cat = ("Resources".data) then
    ps.filter (fun p => p.itemType == ItemType.file)
  else if cat = ("My List".data) then ps.filter (fun p => myList.contains p.id)
  else if cat = ("FETS Apps".data) then ps.filter fetsAppsMatch
  else ps

/-- The search predicate of `filteredProjects` (`App.tsx` lines 104-108):
case-insensitive substring match of the query against name, description,
or any tech-stack tag. -/
def searchMatch (q : Str) (p : Project) : Bool :=
  containsSub (lowerStr p.name) (lowerStr q) ||
  containsSub (lowerStr p.description) (lowerStr q) ||
  p.techStack.any (fun t => containsSub (lowerStr t) (lowerStr q))

/-- `filteredProjects` (`App.tsx` lines 83-112). When the query is
non-empty (truthy), the source replaces the category-filtered list with
a search over the full `projects` collection, so the category filter
only takes effect for an empty query. -/
def filteredProjects (ps : List Project) (cat : Str) (myList : List Str)
    (q : Str) : List Project :=
  if q = [] then categoryFilter ps cat myList else ps.filter (searchMatch q)

/-- The four record keys the grouping is initialised with
(`App.tsx` lines 116-121). -/
def fourStatusKeys : List Str :=
  [ProjectStatus.IN_PROGRESS, ProjectStatus.COMPLETED,
   ProjectStatus.IDEA, ProjectStatus.ARCHIVED]

/-- The catch-all key of the grouping (`App.tsx` line 127). -/
def otherKey : Str := ("Other".data)

/-- Which bucket a status string lands in: its own key when among the
four initialised keys, otherwise `Other` (`App.tsx` lines 123-130; the
`if (grouped[p.status])` test succeeds exactly on the initialised keys,
and a status literally equal to `Other` is also pushed to `Other`). -/
def bucketOf (s : Str) : Str := if s ∈ fourStatusKeys then s else otherKey

/-- `projectsByStatus` (`App.tsx` lines 115-132): the `forEach` push loop
over the filtered sequence, modelled as a fold over a total map from
bucket keys to project lists. -/
def projectsByStatus (ps : List Project) : Str → List Project :=
  ps.foldl
    (fun g p => fun k => if k = bucketOf p.status then g k ++ [p] else g k)
    (fun _ => [])

/-- Every bucket key the grouping can produce. -/
def allBucketKeys : List Str := fourStatusKeys ++ [otherKey]

/-- `handleSubmit` of `ProjectModal.tsx` (lines 165-188): validation and
normalisation before the save callback. Returns `none` when the
submission is rejected (the source `alert`s and returns without saving
or closing). `isEdit` is the presence of `initialData`; `parsed` is
`new Date(dateInput).getTime()` with `0` encoding a falsy reading. -/
def handleSubmit (form : ProjectFormData) (isEdit : Bool) (now : Nat)
    (parsed : Int) : Option ProjectFormData :=
  if trimList form.name = [] then none
  else if isEdit = true ∧ trimList form.changeReason = [] then none
  else some { form with
    createdAt := if parsed = 0 then (now : Int) else parsed,
    status := if form.itemType = ItemType.file then ProjectStatus.COMPLETED
              else form.status }

/-- `handleCreateProject` of `App.tsx` (lines 158-174): builds a fresh
entity with `id = Date.now().toString()` and prepends it to the store. -/
def handleCreateProject (data : ProjectFormData) (now : Nat)
    (projects : List Project) : List Project :=
  { id := natToStr now,
    name := data.name,
    description := data.description,
    status := data.status,
    websiteUrl := data.websiteUrl,
    repoUrl := data.repoUrl,
    imageUrl := data.imageUrl,
    techStack := parseTechStack data.techStack,
    files := data.files,
    createdAt := if data.createdAt = 0 then (now : Int) else data.createdAt,
    itemType := data.itemType,
    changeHistory := [] } :: projects

/-- The author fallback of the change-log entry (`App.tsx` line 183). -/
def unknownAuthor : Str := ("Unknown".data)

/-- The change-log record built by `handleUpdateProject`
(`App.tsx` lines 180-185), with the `||` fallbacks for a falsy author
name and a falsy change reason. -/
def mkChangeLog (user : Option User) (reason : Str) (now : Nat) :
    ChangeLogEntry :=
  { id := natToStr now,
    date := now,
    author := match user with
      | some u => if u.name = [] then unknownAuthor else u.name
      | none => unknownAuthor,
    reason := if reason = [] then ("General update".data) else reason }

/-- The per-entity update of `handleUpdateProject`
(`App.tsx` lines 189-202): spread of the old entity overridden by the
submitted fields; `id` is not overridden; the log entry is appended. -/
def applyUpdate (data : ProjectFormData) (log : ChangeLogEntry)
    (p : Project) : Project :=
  { p with
    name := data.name,
    description := data.description,
    status := data.status,
    websiteUrl := data.websiteUrl,
    repoUrl := data.repoUrl,
    imageUrl := data.imageUrl,
    techStack := parseTechStack data.techStack,
    files := data.files,
    itemType := data.itemType,
    createdAt := if data.createdAt = 0 then p.createdAt else data.createdAt,
    changeHistory := p.changeHistory ++ [log] }

/-- `handleUpdateProject` of `App.tsx` (lines 176-207): guard on a falsy
`editingProject?.id`, then map over the store updating the entities
whose `id` matches the editing id. -/
def handleUpdateProject (editing : Option Project) (user : Option User)
    (projects : List Project) (data : ProjectFormData) (now : Nat) :
    List Project :=
  match editing with
  | none => projects
  | some ep =>
    if ep.id = [] then projects
    else
      projects.map (fun p =>
        if p.id = ep.id then
          applyUpdate data (mkChangeLog user data.changeReason now) p
        else p)

/-- The create-mode submission flow: `handleSubmit` feeding
`handleCreateProject` (`App.tsx` lines 625-630 wire `onSave`), paired
with whether the modal stays open (a rejected submission returns before
`onClose`). -/
def createFlow (form : ProjectFormData) (now : Nat) (parsed : Int)
    (projects : List Project) : List Project × Bool :=
  match handleSubmit form false now parsed with
  | none => (projects, true)
  | some d => (handleCreateProject d now projects, false)

/-- The edit-mode submission flow: `handleSubmit` feeding
`handleUpdateProject` (`App.tsx` lines 632-638 wire `onSave` with
`initialData = editingProject`), paired with whether the modal stays
open. -/
def editFlow (form : ProjectFormData) (ep : Project) (user : Option User)
    (now : Nat) (parsed : Int) (projects : List Project) :
    List Project × Bool :=
  match handleSubmit form true now parsed with
  | none => (projects, true)
  | some d => (handleUpdateProject (some ep) user projects d now, false)

/-- A concrete create-form submission: the scenario of the spec,
`{name: X, techStack: A, B, B, itemType: app}`. -/
def sampleForm : ProjectFormData :=
  { name := ("X".data), description := [], status := ProjectStatus.IDEA,
    websiteUrl := [], repoUrl := [], imageUrl := [],
    techStack := ("A, B, B".data), files := [], itemType := ItemType.app,
    changeReason := [], createdAt := 0 }

/-- A concrete stored catalog entity with technical fields
`repoUrl = old`, `techStack = [Vue]`, `files = orig`. -/
def sampleProject : Project :=
  { id := ("p1".data), name := ("P".data), description := [],
    status := ProjectStatus.IDEA, websiteUrl := [], repoUrl := ("old".data),
    imageUrl := [], techStack := [("Vue".data)], files := ("orig".data),
    createdAt := 1, itemType := ItemType.app, changeHistory := [] }

/-- A concrete user whose role is `EDITOR` (the seed data's
`Center Manager`). -/
def editorUser : User :=
  { id := ("3".data), name := ("Center Manager".data),
    email := ("manager@fets.dev".data), role := UserRole.EDITOR,
    avatarUrl := [] }

/-- A concrete edit submission that scripts past the UI disablement:
the technical fields `repoUrl`, `techStack` and `files` carry changed
values, and the required `name` and `changeReason` are filled in. -/
def editorForm : ProjectFormData :=
  { name := ("P".data), description := [], status := ProjectStatus.IDEA,
    websiteUrl := [], repoUrl := ("new".data), imageUrl := [],
    techStack := ("Hacked".data), files := ("evil".data),
    itemType := ItemType.app, changeReason := ("why".data), createdAt := 0 }

/-- A concrete app whose only tech-stack tag is the lower-case string
`react`. -/
def reactProject : Project :=
  { id := ("r1".data), name := ("R".data), description := [],
    status := ProjectStatus.IDEA, websiteUrl := [], repoUrl := [],
    imageUrl := [], techStack := [("react".data)], files := [],
    createdAt := 1, itemType := ItemType.app, changeHistory := [] }

/-- The claim's version of the `FETS Apps` category predicate, written
from the spec's words (`case-insensitive substring match` of the fixed
keyword set against the tech-stack tags), for comparison with the
source's `fetsAppsMatch`. -/
def fetsAppsSpecMatch (p : Project) : Bool :=
  p.itemType == ItemType.app &&
    p.techStack.any (fun t =>
      keywordList.any (fun k => containsSub (lowerStr t) (lowerStr k)))

/-- A concrete file-type create submission. -/
def fileForm : ProjectFormData :=
  { name := ("F".data), description := [], status := ProjectStatus.IDEA,
    websiteUrl := [], repoUrl := [], imageUrl := [],
    techStack := ("PDF".data), files := [], itemType := ItemType.file,
    changeReason := ("r".data), createdAt := 0 }

lemma digitChar_inj : ∀ x < 10, ∀ y < 10, digitChar x = digitChar y → x = y := by
  decide

lemma natToStrAux_eq_nil {fuel n : Nat} (h : n ≤ fuel) :
    natToStrAux fuel n = [] ↔ n = 0 := by
  cases fuel with
  | zero => simp [natToStrAux]; omega
  | succ f =>
    by_cases h0 : n = 0
    · simp [natToStrAux, h0]
    · simp [natToStrAux, h0]

lemma natToStrAux_inj :
    ∀ fuel n fuel2 m, n ≤ fuel → m ≤ fuel2 →
      natToStrAux fuel n = natToStrAux fuel2 m → n = m := by
  intro fuel
  induction fuel with
  | zero =>
    intro n fuel2 m hn hm heq
    have hn0 : n = 0 := Nat.le_zero.mp hn
    subst hn0
    have h' : natToStrAux fuel2 m = [] := by
      simpa [natToStrAux] using heq.symm
    exact ((natToStrAux_eq_nil hm).mp h').symm
  | succ f ih =>
    intro n fuel2 m hn hm heq
    by_cases h0 : n = 0
    · subst h0
      have h' : natToStrAux fuel2 m = [] := by
        simpa [natToStrAux] using heq.symm
      exact ((natToStrAux_eq_nil hm).mp h').symm
    · cases fuel2 with
      | zero =>
        have hm0 : m = 0 := Nat.le_zero.mp hm
        subst hm0
        simp [natToStrAux, h0] at heq
      | succ f2 =>
        by_cases hm0 : m = 0
        · subst hm0
          simp [natToStrAux, h0] at heq
        · have e1 : natToStrAux (f + 1) n =
              digitChar (n % 10) :: natToStrAux f (n / 10) := by
            simp [natToStrAux, h0]
          have e2 : natToStrAux (f2 + 1) m =
              digitChar (m % 10) :: natToStrAux f2 (m / 10) := by
            simp [natToStrAux, hm0]
          rw [e1, e2] at heq
          obtain ⟨hhead, htail⟩ := List.cons_eq_cons.mp heq
          have hdn : n / 10 < n := Nat.div_lt_self (Nat.pos_of_ne_zero h0) (by norm_num)
          have hdm : m / 10 < m := Nat.div_lt_self (Nat.pos_of_ne_zero hm0) (by norm_num)
          have hmod : n % 10 = m % 10 :=
            digitChar_inj _ (Nat.mod_lt _ (by norm_num)) _ (Nat.mod_lt _ (by norm_num)) hhead
          have hdiv : n / 10 = m / 10 := ih (n / 10) f2 (m / 10) (by omega) (by omega) htail
          have h1 := Nat.div_add_mod n 10
          have h2 := Nat.div_add_mod m 10
          omega

lemma natToStr_inj : ∀ n m, natToStr n = natToStr m → n = m := by
  have key : ∀ m, m ≠ 0 → natToStrAux m m ≠ [Char.ofNat 48] := by
    intro m hm0 heq
    cases m with
    | zero => exact hm0 rfl
    | succ k =>
      have e : natToStrAux (k + 1) (k + 1) =
          digitChar ((k + 1) % 10) :: natToStrAux k ((k + 1) / 10) := by
        simp [natToStrAux]
      rw [e] at heq
      obtain ⟨hhead, htail⟩ := List.cons_eq_cons.mp heq
      have hd : (k + 1) / 10 < k + 1 := Nat.div_lt_self (Nat.succ_pos k) (by norm_num)
      have hdiv : (k + 1) / 10 = 0 := (natToStrAux_eq_nil (by omega)).mp htail
      have hmod : (k + 1) % 10 = 0 := by
        have h48 : digitChar ((k + 1) % 10) = digitChar 0 := hhead
        exact digitChar_inj _ (Nat.mod_lt _ (by norm_num)) 0 (by norm_num) h48
      have := Nat.div_add_mod (k + 1) 10
      omega
  intro n m heq
  unfold natToStr at heq
  by_cases hn : n = 0 <;> by_cases hm : m = 0
  · omega
  · rw [if_pos hn, if_neg hm] at heq
    exfalso
    apply key m hm
    have hrev : (natToStrAux m m).reverse = [Char.ofNat 48] := by
      rw [← heq]
    calc natToStrAux m m = (natToStrAux m m).reverse.reverse := by
          rw [List.reverse_reverse]
      _ = [Char.ofNat 48] := by rw [hrev]; decide
  · rw [if_neg hn, if_pos hm] at heq
    exfalso
    apply key n hn
    have hrev : (natToStrAux n n).reverse = [Char.ofNat 48] := by
      rw [heq]
    calc natToStrAux n n = (natToStrAux n n).reverse.reverse := by
          rw [List.reverse_reverse]
      _ = [Char.ofNat 48] := by rw [hrev]; decide
  · rw [if_neg hn, if_neg hm] at heq
    have h' : natToStrAux n n = natToStrAux m m := by
      have := congrArg List.reverse heq
      simpa using this
    exact natToStrAux_inj n n m m (Nat.le_refl n) (Nat.le_refl m) h'

lemma foldl_bucket (ps : List Project) (g : Str → List Project) (k : Str) :
    (ps.foldl
      (fun g p => fun k => if k = bucketOf p.status then g k ++ [p] else g k)
      g) k
      = g k ++ ps.filter (fun p => bucketOf p.status == k) := by
  induction ps generalizing g with
  | nil => simp
  | cons p t ih =>
    simp only [List.foldl_cons, List.filter_cons]
    rw [ih]
    by_cases h : k = bucketOf p.status
    · subst h
      simp [List.append_assoc]
    · have hb : (bucketOf p.status == k) = false := by
        simp [beq_iff_eq]
        exact fun hh => h hh.symm
      simp only [if_neg h, hb, Bool.false_eq_true, if_false]

lemma projectsByStatus_eq_filter (ps : List Project) (k : Str) :
    projectsByStatus ps k = ps.filter (fun p => bucketOf p.status == k) := by
  unfold projectsByStatus
  rw [foldl_bucket]
  simp

lemma bucketOf_mem (s : Str) : bucketOf s ∈ allBucketKeys := by
  unfold bucketOf allBucketKeys
  by_cases h : s ∈ fourStatusKeys
  · rw [if_pos h]; exact List.mem_append_left _ h
  · rw [if_neg h]; exact List.mem_append_right _ (List.mem_singleton_self _)

lemma indicator_zero (keys : List Str) (x : Str) (hx : x ∉ keys) :
    (keys.map (fun k => if x = k then 1 else 0)).sum = 0 := by
  induction keys with
  | nil => simp
  | cons a t ih =>
    simp only [List.map_cons, List.sum_cons]
    have hxa : x ≠ a := fun h => hx (h ▸ List.mem_cons_self a t)
    have hxt : x ∉ t := fun h => hx (List.mem_cons_of_mem a h)
    rw [if_neg hxa, ih hxt]

lemma indicator_one (keys : List Str) (x : Str) (hnd : keys.Nodup)
    (hx : x ∈ keys) :
    (keys.map (fun k => if x = k then 1 else 0)).sum = 1 := by
  induction keys with
  | nil => simp at hx
  | cons a t ih =>
    simp only [List.map_cons, List.sum_cons]
    rcases List.mem_cons.mp hx with h | h
    · rw [if_pos h]
      have hat : a ∉ t := (List.nodup_cons.mp hnd).1
      rw [indicator_zero t x (h ▸ hat)]
    · have hxa : x ≠ a := by
        intro hh
        exact (List.nodup_cons.mp hnd).1 (hh ▸ h)
      rw [if_neg hxa, ih (List.nodup_cons.mp hnd).2 h]

lemma sum_map_add {α : Type} (l : List α) (f g : α → Nat) :
    (l.map (fun x => f x + g x)).sum = (l.map f).sum + (l.map g).sum := by
  induction l with
  | nil => simp
  | cons a t ih => simp only [List.map_cons, List.sum_cons, ih]; omega

lemma bucket_lengths_sum (ps : List Project) :
    (allBucketKeys.map
      (fun k => (ps.filter (fun p => bucketOf p.status == k)).length)).sum
      = ps.length := by
  induction ps with
  | nil => decide
  | cons p t ih =>
    have step : ∀ k : Str,
        (List.filter (fun q => bucketOf q.status == k) (p :: t)).length
          = (if bucketOf p.status = k then 1 else 0)
            + (t.filter (fun q => bucketOf q.status == k)).length := by
      intro k
      rw [List.filter_cons]
      by_cases h : bucketOf p.status = k
      · have hb : (bucketOf p.status == k) = true := by simp [beq_iff_eq, h]
        simp [hb, h, Nat.add_comm]
      · have hb : (bucketOf p.status == k) = false := by simp [beq_iff_eq, h]
        simp [hb, h]
    calc (allBucketKeys.map
            (fun k => (List.filter (fun q => bucketOf q.status == k) (p :: t)).length)).sum
        = (allBucketKeys.map
            (fun k => (if bucketOf p.status = k then 1 else 0)
              + (t.filter (fun q => bucketOf q.status == k)).length)).sum := by
          congr 1
          exact List.map_congr_left (fun k _ => step k)
      _ = (allBucketKeys.map (fun k => if bucketOf p.status = k then 1 else 0)).sum
          + (allBucketKeys.map
              (fun k => (t.filter (fun q => bucketOf q.status == k)).length)).sum := by
          rw [sum_map_add]
      _ = 1 + t.length := by
          rw [indicator_one allBucketKeys (bucketOf p.status) (by decide)
            (bucketOf_mem p.status), ih]
      _ = (p :: t).length := by simp [Nat.add_comm]

/-- C1: the claim states that a submission by a user whose role lacks the
`edit technical fields` capability (here `EDITOR`) has its submitted
technical-field values rejected or ignored by some enforcement point even
when it reaches the save handler directly. The code has no such
enforcement: neither `handleSubmit` nor `handleUpdateProject` consults
the role, so this theorem evaluates the save path at the failing input
and shows the stored entity's `repoUrl`, `techStack` and `files` all take
the EDITOR's submitted values. -/
theorem c1_editor_submission_overwrites_technical_fields :
    editorUser.role = UserRole.EDITOR ∧
    sampleProject.repoUrl ≠ ("new".data) ∧
    (editFlow editorForm sampleProject (some editorUser) 5 0
        [sampleProject]).1.map
        (fun p => (p.repoUrl, p.techStack, p.files)) =
      [(("new".data), [("Hacked".data)], ("evil".data))] := by
  decide

/-- C2 (counterexample): fresh ids are `Date.now().toString()`, so two
create saves that observe the same millisecond clock reading produce two
entities with the SAME id, refuting both the distinct-ids claim and the
store-wide id-uniqueness claim at this input. -/
theorem c2_counterexample_same_clock_duplicate_ids :
    ((createFlow sampleForm 111 0
        (createFlow sampleForm 111 0 []).1).1).map Project.id =
      [("111".data), ("111".data)] ∧
    ¬ (((createFlow sampleForm 111 0
        (createFlow sampleForm 111 0 []).1).1).map Project.id).Nodup := by
  decide

/-- C2 (amended): provided the two create saves observe distinct clock
readings and neither reading's decimal string collides with an existing
id, saving the create form twice with identical input prepends two
distinct entities with distinct ids and preserves id-uniqueness of the
store. -/
theorem c2_amended_two_creates_distinct_ids (form : ProjectFormData)
    (s0 : List Project) (now1 now2 : Nat) (parsed1 parsed2 : Int)
    (hname : trimList form.name ≠ [])
    (hne : now1 ≠ now2)
    (h1 : ∀ p ∈ s0, p.id ≠ natToStr now1)
    (h2 : ∀ p ∈ s0, p.id ≠ natToStr now2)
    (hnd : (s0.map Project.id).Nodup) :
    ∃ p1 p2 : Project,
      (createFlow form now2 parsed2 (createFlow form now1 parsed1 s0).1).1
        = p2 :: p1 :: s0 ∧
      p1.id ≠ p2.id ∧
      (((createFlow form now2 parsed2
          (createFlow form now1 parsed1 s0).1).1).map Project.id).Nodup := by
  have hsub : ∀ (now : Nat) (parsed : Int),
      handleSubmit form false now parsed = some { form with
        createdAt := if parsed = 0 then (now : Int) else parsed,
        status := if form.itemType = ItemType.file then
          ProjectStatus.COMPLETED else form.status } := by
    intro now parsed
    unfold handleSubmit
    rw [if_neg hname, if_neg (by simp)]
  simp only [createFlow, hsub]
  refine ⟨_, _, rfl, ?_, ?_⟩
  · show natToStr now1 ≠ natToStr now2
    exact fun h => hne (natToStr_inj _ _ h)
  · simp only [handleCreateProject, List.map_cons]
    rw [List.nodup_cons, List.nodup_cons]
    refine ⟨?_, ?_, hnd⟩
    · rw [List.mem_cons]
      push_neg
      refine ⟨fun h => hne (natToStr_inj _ _ h.symm), ?_⟩
      intro hmem
      obtain ⟨p, hp, hpid⟩ := List.mem_map.mp hmem
      exact h2 p hp hpid
    · intro hmem
      obtain ⟨p, hp, hpid⟩ := List.mem_map.mp hmem
      exact h1 p hp hpid

/-- C2 witness: the amended theorem applied at clock readings 1 and 2 on
the empty store. -/
theorem c2_amended_two_creates_distinct_ids_witness :
    ∃ p1 p2 : Project,
      (createFlow sampleForm 2 0 (createFlow sampleForm 1 0 []).1).1
        = p2 :: p1 :: [] ∧
      p1.id ≠ p2.id ∧
      (((createFlow sampleForm 2 0
          (createFlow sampleForm 1 0 []).1).1).map Project.id).Nodup :=
  c2_amended_two_creates_distinct_ids sampleForm [] 1 2 0 0 (by decide)
    (by decide) (by simp) (by simp) (by simp)

/-- C3 (counterexample): the `FETS Apps` keyword test in the source is
`t.includes(k)`, which is case-sensitive; an app tagged `react` (lower
case) is excluded by the code although the claim's case-insensitive
match includes it. -/
theorem c3_counterexample_case_sensitivity :
    filteredProjects [reactProject] ("FETS Apps".data) [] [] = [] ∧
    List.filter fetsAppsSpecMatch [reactProject] = [reactProject] := by
  decide

/-- C3 (amended): with an empty query, the `FETS Apps` category yields
exactly the items of type `app` one of whose tech-stack tags contains
some keyword of the fixed set by a CASE-SENSITIVE substring match, and an
unrecognized category yields the identity. -/
theorem c3_amended_category_filter (ps : List Project) (myList : List Str) :
    (∀ p, p ∈ filteredProjects ps ("FETS Apps".data) myList [] ↔
      p ∈ ps ∧ p.itemType = ItemType.app ∧
        ∃ t ∈ p.techStack, ∃ k ∈ keywordList, containsSub t k = true) ∧
    (∀ cat, cat ∉ [("Home".data), ("Resources".data), ("My List".data),
        ("FETS Apps".data)] →
      filteredProjects ps cat myList [] = ps) := by
  constructor
  · intro p
    unfold filteredProjects categoryFilter
    rw [if_pos rfl, if_neg (by decide), if_neg (by decide),
      if_neg (by decide), if_pos rfl]
    rw [List.mem_filter]
    unfold fetsAppsMatch
    simp [List.any_eq_true, and_assoc]
  · intro cat hcat
    simp only [List.mem_cons, List.not_mem_nil, or_false, not_or] at hcat
    obtain ⟨hh, hr, hm, hf⟩ := hcat
    unfold filteredProjects categoryFilter
    rw [if_pos rfl, if_neg hh, if_neg hr, if_neg hm, if_neg hf]

/-- C3 witness: the amended theorem's identity clause at the unrecognized
category `SOP`. -/
theorem c3_amended_category_filter_witness :
    filteredProjects [reactProject] ("SOP".data) [] [] = [reactProject] :=
  (c3_amended_category_filter [reactProject] []).2 ("SOP".data) (by decide)

/-- C4: for a non-empty search query the filtered result is a function of
the items and the query alone — the active category and the my-list ids
are ignored — and it equals the case-insensitive substring matches of the
query against name, description, or any tech-stack tag over the whole
unfiltered collection. -/
theorem c4_search_ignores_category (ps : List Project) (cat1 cat2 : Str)
    (ml1 ml2 : List Str) (q : Str) (hq : q ≠ []) :
    filteredProjects ps cat1 ml1 q = filteredProjects ps cat2 ml2 q ∧
    filteredProjects ps cat1 ml1 q = ps.filter (searchMatch q) ∧
    ∀ p, p ∈ filteredProjects ps cat1 ml1 q ↔
      p ∈ ps ∧ (containsSub (lowerStr p.name) (lowerStr q) = true ∨
        containsSub (lowerStr p.description) (lowerStr q) = true ∨
        ∃ t ∈ p.techStack, containsSub (lowerStr t) (lowerStr q) = true) := by
  unfold filteredProjects
  simp only [if_neg hq]
  refine ⟨trivial, trivial, ?_⟩
  intro p
  rw [List.mem_filter]
  unfold searchMatch
  simp only [Bool.or_eq_true, List.any_eq_true]
  tauto

/-- C4 witness: the category-independence clause at a concrete store,
two different categories and different my-list contents. -/
theorem c4_search_ignores_category_witness :
    filteredProjects [sampleProject, reactProject] ("Home".data) []
        ("re".data) =
      filteredProjects [sampleProject, reactProject] ("SOP".data)
        [("p1".data)] ("re".data) :=
  (c4_search_ignores_category [sampleProject, reactProject] ("Home".data)
    ("SOP".data) [] [("p1".data)] ("re".data) (by decide)).1

/-- C5: a successful edit save appends exactly one change-log entry to
the edited entity, the appended entry's reason is the submitted
`changeReason`, and every entity whose id differs from the editing id is
left unchanged. -/
theorem c5_edit_appends_one_log (form : ProjectFormData) (ep : Project)
    (user : Option User) (ps : List Project) (now : Nat) (parsed : Int)
    (hname : trimList form.name ≠ [])
    (hreason : trimList form.changeReason ≠ [])
    (hid : ep.id ≠ []) :
    ((editFlow form ep user now parsed ps).1).length = ps.length ∧
    ∀ (i : Nat) (p : Project), ps[i]? = some p →
      (p.id ≠ ep.id → ((editFlow form ep user now parsed ps).1)[i]? = some p) ∧
      (p.id = ep.id → ∃ p2 e,
        ((editFlow form ep user now parsed ps).1)[i]? = some p2 ∧
        p2.changeHistory = p.changeHistory ++ [e] ∧
        e.reason = form.changeReason) := by
  have hcr : form.changeReason ≠ [] := by
    intro h
    exact hreason (by rw [h]; rfl)
  have hsub : handleSubmit form true now parsed = some { form with
      createdAt := if parsed = 0 then (now : Int) else parsed,
      status := if form.itemType = ItemType.file then
        ProjectStatus.COMPLETED else form.status } := by
    unfold handleSubmit
    rw [if_neg hname, if_neg (by simp [hreason])]
  simp only [editFlow, hsub, handleUpdateProject, if_neg hid]
  constructor
  · exact List.length_map ..
  · intro i p hp
    constructor
    · intro hne
      rw [List.getElem?_map, hp, Option.map_some', if_neg hne]
    · intro heq
      rw [List.getElem?_map, hp, Option.map_some', if_pos heq]
      refine ⟨_, _, rfl, rfl, ?_⟩
      simp [mkChangeLog, hcr]

/-- C5 witness: the theorem applied at a concrete one-entity store with
the EDITOR's concrete submission (the length clause). -/
theorem c5_edit_appends_one_log_witness :
    ((editFlow editorForm sampleProject (some editorUser) 5 0
        [sampleProject]).1).length = ([sampleProject] : List Project).length :=
  (c5_edit_appends_one_log editorForm sampleProject (some editorUser)
    [sampleProject] 5 0 (by decide) (by decide) (by decide)).1

/-- C6: any save through the workflow whose submitted `itemType` is
`file` stores status `COMPLETED` regardless of the submitted status: the
normalised payload, the entity prepended by a create save, and the entity
rewritten by an edit save all carry status `COMPLETED`. -/
theorem c6_file_forces_completed (form : ProjectFormData)
    (hfile : form.itemType = ItemType.file) :
    (∀ isEdit now parsed d, handleSubmit form isEdit now parsed = some d →
      d.status = ProjectStatus.COMPLETED) ∧
    (∀ now parsed ps, trimList form.name ≠ [] →
      ∃ p rest, (createFlow form now parsed ps).1 = p :: rest ∧
        p.status = ProjectStatus.COMPLETED) ∧
    (∀ (ep : Project) (user : Option User) (now : Nat) (parsed : Int)
      (ps : List Project) (i : Nat) (p : Project), trimList form.name ≠ [] →
      trimList form.changeReason ≠ [] → ep.id ≠ [] →
      ps[i]? = some p → p.id = ep.id →
      ∃ p2, ((editFlow form ep user now parsed ps).1)[i]? = some p2 ∧
        p2.status = ProjectStatus.COMPLETED) := by
  refine ⟨?_, ?_, ?_⟩
  · intro isEdit now parsed d hd
    unfold handleSubmit at hd
    by_cases h1 : trimList form.name = []
    · rw [if_pos h1] at hd; exact absurd hd (by simp)
    · rw [if_neg h1] at hd
      by_cases h2 : isEdit = true ∧ trimList form.changeReason = []
      · rw [if_pos h2] at hd; exact absurd hd (by simp)
      · rw [if_neg h2] at hd
        have := Option.some.inj hd
        rw [← this]
        simp [hfile]
  · intro now parsed ps hname
    have hsub : handleSubmit form false now parsed = some { form with
        createdAt := if parsed = 0 then (now : Int) else parsed,
        status := if form.itemType = ItemType.file then
          ProjectStatus.COMPLETED else form.status } := by
      unfold handleSubmit
      rw [if_neg hname, if_neg (by simp)]
    simp only [createFlow, hsub]
    refine ⟨_, ps, rfl, ?_⟩
    simp [handleCreateProject, hfile]
  · intro ep user now parsed ps i p hname hreason hid hp heq
    have hsub : handleSubmit form true now parsed = some { form with
        createdAt := if parsed = 0 then (now : Int) else parsed,
        status := if form.itemType = ItemType.file then
          ProjectStatus.COMPLETED else form.status } := by
      unfold handleSubmit
      rw [if_neg hname, if_neg (by simp [hreason])]
    simp only [editFlow, hsub, handleUpdateProject, if_neg hid]
    rw [List.getElem?_map, hp, Option.map_some', if_pos heq]
    refine ⟨_, rfl, ?_⟩
    simp [applyUpdate, hfile]

/-- C6 witness: a concrete file-type create save whose stored head entity
has status `COMPLETED` although status `IDEA` was submitted. -/
theorem c6_file_forces_completed_witness :
    ∃ p rest, (createFlow fileForm 9 0 []).1 = p :: rest ∧
      p.status = ProjectStatus.COMPLETED :=
  (c6_file_forces_completed fileForm rfl).2.1 9 0 [] (by decide)

/-- C7: a submission with an empty (after trim) name, or an edit
submission with an empty (after trim) change reason, is rejected: the
store is returned unchanged and the modal stays open. -/
theorem c7_validation_rejects (form : ProjectFormData) (ep : Project)
    (user : Option User) (now : Nat) (parsed : Int) (ps : List Project) :
    (trimList form.name = [] →
      createFlow form now parsed ps = (ps, true) ∧
      editFlow form ep user now parsed ps = (ps, true)) ∧
    (trimList form.changeReason = [] →
      editFlow form ep user now parsed ps = (ps, true)) := by
  constructor
  · intro h
    constructor
    · simp only [createFlow, handleSubmit, if_pos h]
    · simp only [editFlow, handleSubmit, if_pos h]
  · intro h
    by_cases h1 : trimList form.name = []
    · simp only [editFlow, handleSubmit, if_pos h1]
    · simp [editFlow, handleSubmit, h1, h]

/-- C7 witness: a concrete edit submission with an empty change reason is
rejected, the one-entity store is unchanged, and the modal stays open. -/
theorem c7_validation_rejects_witness :
    editFlow { editorForm with changeReason := [] } sampleProject
        (some editorUser) 5 0 [sampleProject] = ([sampleProject], true) :=
  (c7_validation_rejects { editorForm with changeReason := [] }
    sampleProject (some editorUser) 5 0 [sampleProject]).2 (by decide)

/-- C8: the comma-separated tech-stack input is normalised into its
trimmed non-empty segments — an order-preserving, duplicate-retaining
sub-selection of the trimmed segments with no empty element — the
scenario input `A, B, B` yields `[A, B, B]`, and the entity stored by a
create save carries exactly this normalisation. -/
theorem c8_techstack_normalization :
    (∀ (s t : Str), t ∈ parseTechStack s → t ≠ []) ∧
    (∀ s : Str, List.Sublist (parseTechStack s) ((splitComma s).map trimList)) ∧
    parseTechStack ("A, B, B".data) = [("A".data), ("B".data), ("B".data)] ∧
    (∀ (data : ProjectFormData) (now : Nat) (ps : List Project),
      (handleCreateProject data now ps).map Project.techStack
        = parseTechStack data.techStack :: ps.map Project.techStack) ∧
    ((createFlow sampleForm 7 0 []).1).map Project.techStack
      = [[("A".data), ("B".data), ("B".data)]] := by
  refine ⟨?_, ?_, by decide, ?_, by decide⟩
  · intro s t ht hnil
    have h2 := List.of_mem_filter ht
    rw [hnil] at h2
    simp at h2
  · intro s
    exact List.filter_sublist _
  · intro data now ps
    rfl

/-- C8 witness: the no-empty-element clause applied at the input
`,, ,` (whose segments all trim to the empty string). -/
theorem c8_techstack_normalization_witness :
    ([] : Str) ∉ parseTechStack ((",, ,".data)) :=
  fun h => (c8_techstack_normalization.1 ((",, ,".data)) [] h) rfl

/-- C9: grouping the filtered sequence by status is a partition: every
bucket is the order-preserving sub-sequence of the input selected by its
key, the bucket lengths over the four fixed keys plus the `Other`
catch-all sum to the input length (no duplication, no loss), and every
item of the input lies in exactly one bucket. -/
theorem c9_grouping_partition (ps : List Project) :
    (∀ k, projectsByStatus ps k
      = ps.filter (fun p => bucketOf p.status == k)) ∧
    (∀ k, List.Sublist (projectsByStatus ps k) ps) ∧
    (allBucketKeys.map (fun k => (projectsByStatus ps k).length)).sum
      = ps.length ∧
    (∀ p, p ∈ ps → ∃! k, p ∈ projectsByStatus ps k) := by
  refine ⟨projectsByStatus_eq_filter ps, ?_, ?_, ?_⟩
  · intro k
    rw [projectsByStatus_eq_filter]
    exact List.filter_sublist _
  · rw [List.map_congr_left
      (fun k _ => by rw [projectsByStatus_eq_filter ps k])]
    exact bucket_lengths_sum ps
  · intro p hp
    refine ⟨bucketOf p.status, ?_, ?_⟩
    · show p ∈ projectsByStatus ps (bucketOf p.status)
      rw [projectsByStatus_eq_filter]
      exact List.mem_filter.mpr ⟨hp, by simp⟩
    · intro k hk
      rw [projectsByStatus_eq_filter] at hk
      have := (List.mem_filter.mp hk).2
      exact (beq_iff_eq.mp this).symm

/-- C9 witness: the exactly-one-bucket clause applied at a concrete
one-item sequence. -/
theorem c9_grouping_partition_witness :
    ∃! k, reactProject ∈ projectsByStatus [reactProject] k :=
  (c9_grouping_partition [reactProject]).2.2.2 reactProject (by decide)

/-- C10: an update save never changes the length of the store, keeps
every entity's id (in particular the target keeps its id), leaves every
entity whose id differs from the editing id entirely unchanged, and
leaves the store unchanged when no entity matches the editing id (or
when nothing is being edited). -/
theorem c10_update_frame (editing : Option Project) (user : Option User)
    (ps : List Project) (data : ProjectFormData) (now : Nat) :
    (handleUpdateProject editing user ps data now).length = ps.length ∧
    (∀ (i : Nat) (p : Project), ps[i]? = some p →
      ∃ p2, (handleUpdateProject editing user ps data now)[i]? = some p2 ∧
        p2.id = p.id ∧
        (∀ ep, editing = some ep → p.id ≠ ep.id → p2 = p)) ∧
    (∀ ep, editing = some ep → (∀ p ∈ ps, p.id ≠ ep.id) →
      handleUpdateProject editing user ps data now = ps) ∧
    (editing = none → handleUpdateProject editing user ps data now = ps) := by
  cases editing with
  | none =>
    refine ⟨rfl, ?_, ?_, fun _ => rfl⟩
    · intro i p hp
      exact ⟨p, hp, rfl, fun ep hep _ => by simp at hep⟩
    · intro ep hep
      simp at hep
  | some ep =>
    by_cases hid : ep.id = []
    · have hr : handleUpdateProject (some ep) user ps data now = ps := by
        simp [handleUpdateProject, hid]
      rw [hr]
      refine ⟨rfl, ?_, fun _ _ _ => rfl, fun h => by simp at h⟩
      intro i p hp
      refine ⟨p, hp, rfl, fun _ _ _ => rfl⟩
    · simp only [handleUpdateProject, if_neg hid]
      refine ⟨List.length_map .., ?_, ?_, fun h => by simp at h⟩
      · intro i p hp
        by_cases hmatch : p.id = ep.id
        · rw [List.getElem?_map, hp, Option.map_some', if_pos hmatch]
          refine ⟨_, rfl, rfl, ?_⟩
          intro ep2 hep2 hne
          rw [← Option.some.inj hep2] at hne
          exact absurd hmatch hne
        · rw [List.getElem?_map, hp, Option.map_some', if_neg hmatch]
          exact ⟨p, rfl, rfl, fun _ _ _ => rfl⟩
      · intro ep2 hep2 hall
        have hmap : ∀ p ∈ ps,
            (if p.id = ep.id then
              applyUpdate data (mkChangeLog user data.changeReason now) p
            else p) = p := by
          intro p hp
          rw [if_neg]
          rw [Option.some.inj hep2]
          exact hall p hp
        rw [List.map_congr_left hmap]
        simp

/-- C10 witness: a concrete update whose editing id matches no stored
entity leaves the store unchanged. -/
theorem c10_update_frame_witness :
    handleUpdateProject (some sampleProject) (some editorUser)
        [reactProject] editorForm 5 = [reactProject] :=
  (c10_update_frame (some sampleProject) (some editorUser) [reactProject]
    editorForm 5).2.2.1 sampleProject rfl (by decide)

end FetsHub
